import Mathlib

/-!
Shallow embedding of the receptionist operations of the semaphore-based
restaurant simulation (`semSharedMemReceptionist.c`).

Shared-memory fields used by this process (`sh->fSt`) are gathered in
`SharedState`, together with the receptionist's internal `groupRecord`
array.  Semaphore `semUp` operations on the non-mutex semaphores are
modelled as an emitted list of `Signal`s; the sequential body of each
critical section becomes a pure state transformer.
-/

namespace Restaurant

/-- Group lifecycle constants, from the `#define`s in the source
(`TOARRIVE 0`, `WAIT 1`, `ATTABLE 2`, `DONE 3`). -/
def TOARRIVE : Nat := 0

def WAIT : Nat := 1

def ATTABLE : Nat := 2

def DONE : Nat := 3

/-- Modelled from the spec: receptionist status codes (`WAIT_FOR_REQUEST`,
`ASSIGNTABLE`, `RECVPAY`) come from `probConst.h`, which is not under the
sources; only their distinctness is relevant, concrete values are arbitrary. -/
def WAIT_FOR_REQUEST : Nat := 0

def ASSIGNTABLE : Nat := 1

def RECVPAY : Nat := 2

/-- A request posted in the shared slot: `{reqType, reqGroup}`. -/
structure Request where
  reqType : Int
  reqGroup : Int
deriving DecidableEq, Repr

/-- The shared state visible to the receptionist (`sh->fSt` fields it uses)
plus its internal `groupRecord` array.  `nGroups` is `sh->fSt.nGroups` and
`numTables` the compile-time constant `NUMTABLES` (kept symbolic). -/
structure SharedState where
  nGroups : Nat
  numTables : Nat
  assignedTable : List Int
  groupRecord : List Nat
  groupsWaiting : Int
  receptionistRequest : Request
  receptionistStat : Nat
deriving DecidableEq, Repr

/-- A `semUp` on one of the non-mutex semaphores. -/
inductive Signal where
  | waitForTable (n : Nat)
  | tableDone (t : Nat)
  | requestPossible
deriving DecidableEq, Repr

/-- Inner loop of `decideTableOrWait`: table `numTable` is in use iff some
group's `assignedTable` entry equals it. -/
def tableInUse (s : SharedState) (numTable : Nat) : Bool :=
  (List.range s.nGroups).any (fun i => s.assignedTable.getD i (-1) == (numTable : Int))

/-- Function `decideTableOrWait`: scans tables `0 .. NUMTABLES-1` and returns the
first one not in use, or `-1` when all are in use.  The group argument `n`
is present in the source but never read. -/
def decideTableOrWait (s : SharedState) (n : Int) : Int :=
  match (List.range s.numTables).find? (fun numTable => !(tableInUse s numTable)) with
  | some t => (t : Int)
  | none => -1

/-- Function `decideNextGroup`: scans groups `0 .. nGroups-1` and returns the first
one whose `groupRecord` entry is `WAIT`, or `-1` when none is waiting. -/
def decideNextGroup (s : SharedState) : Int :=
  match (List.range s.nGroups).find? (fun i => s.groupRecord.getD i TOARRIVE == WAIT) with
  | some g => (g : Int)
  | none => -1

/-- The empty request sentinel `{reqType: -1, reqGroup: -1}`. -/
def emptyRequest : Request := ⟨-1, -1⟩

/-- Operation `waitForGroup`: publishes `WAIT_FOR_REQUEST`, copies the posted request
out of the shared slot, resets the slot to the empty sentinel and signals
`receptionistRequestPossible`.  Returns the copied request, the new state
and the emitted signals. -/
def waitForGroup (s : SharedState) : Request × SharedState × List Signal :=
  let s1 := { s with receptionistStat := WAIT_FOR_REQUEST }
  let ret := s1.receptionistRequest
  let s2 := { s1 with receptionistRequest := emptyRequest }
  (ret, s2, [Signal.requestPossible])

/-- Operation `provideTableOrWaitingRoom`: publishes `ASSIGNTABLE`; if
`decideTableOrWait` finds a table it records the assignment, marks the
group `ATTABLE` and signals that group's `waitForTable` semaphore;
otherwise it increments `groupsWaiting` and marks the group `WAIT`. -/
def provideTableOrWaitingRoom (s : SharedState) (n : Nat) : SharedState × List Signal :=
  let s1 := { s with receptionistStat := ASSIGNTABLE }
  let table := decideTableOrWait s1 (n : Int)
  if table ≠ -1 then
    ({ s1 with assignedTable := s1.assignedTable.set n table,
               groupRecord := s1.groupRecord.set n ATTABLE },
     [Signal.waitForTable n])
  else
    ({ s1 with groupsWaiting := s1.groupsWaiting + 1,
               groupRecord := s1.groupRecord.set n WAIT },
     [])

/-- The state after the critical section of `receivePayment n`: status
`RECVPAY`, group `n`'s assignment cleared to `-1`, its record `DONE`. -/
def payMid (s : SharedState) (n : Nat) : SharedState :=
  { s with receptionistStat := RECVPAY,
           assignedTable := s.assignedTable.set n (-1),
           groupRecord := s.groupRecord.set n DONE }

/-- Operation `receivePayment`: publishes `RECVPAY`, signals `tableDone` for the
table assigned to group `n` (the unguarded array access
`sh->tableDone[sh->fSt.assignedTable[n]]` is in bounds only when that
assignment lies in `[0, NUMTABLES)`, hence the `Option`), clears the
assignment, marks the group `DONE`; then, outside the critical section, if
`decideNextGroup` finds a waiting group it re-runs
`provideTableOrWaitingRoom` for it and decrements `groupsWaiting`. -/
def receivePayment (s : SharedState) (n : Nat) : Option (SharedState × List Signal) :=
  let t := s.assignedTable.getD n (-1)
  if 0 ≤ t ∧ t < (s.numTables : Int) then
    let s2 := payMid s n
    let group := decideNextGroup s2
    if group ≠ -1 then
      let ps := provideTableOrWaitingRoom s2 group.toNat
      some ({ ps.1 with groupsWaiting := ps.1.groupsWaiting - 1 },
            Signal.tableDone t.toNat :: ps.2)
    else
      some (s2, [Signal.tableDone t.toNat])
  else
    none

/-- The initial state.  `groupRecord` all `TOARRIVE` is the initialisation
in the source's `main`.  Modelled from the spec: the shared region's
initial values (assignments all at the unassigned sentinel `-1`, waiting
count `0`, request slot at the empty sentinel) are set by the bootstrap
program, which is not under the sources; the spec's data model gives these
initial values. -/
def initState (nG nT : Nat) : SharedState :=
  { nGroups := nG, numTables := nT,
    assignedTable := List.replicate nG (-1),
    groupRecord := List.replicate nG TOARRIVE,
    groupsWaiting := 0,
    receptionistRequest := emptyRequest,
    receptionistStat := WAIT_FOR_REQUEST }

/-- Basic well-formedness: the two per-group arrays have length `nGroups`. -/
def WF (s : SharedState) : Prop :=
  s.assignedTable.length = s.nGroups ∧ s.groupRecord.length = s.nGroups

/-- One receptionist operation on the shared state, with any in-range group
id, plus the (external) posting of a request into the shared slot. -/
inductive Step : SharedState → SharedState → Prop where
  | wait (s : SharedState) : Step s (waitForGroup s).2.1
  | post (s : SharedState) (r : Request) : Step s { s with receptionistRequest := r }
  | provide (s : SharedState) (n : Nat) (hn : n < s.nGroups) :
      Step s (provideTableOrWaitingRoom s n).1
  | pay (s : SharedState) (n : Nat) (s' : SharedState) (sigs : List Signal)
      (hn : n < s.nGroups) (h : receivePayment s n = some (s', sigs)) : Step s s'

/-- States reachable from the initial state by any sequence of receptionist
operations. -/
inductive Reachable (nG nT : Nat) : SharedState → Prop where
  | init : Reachable nG nT (initState nG nT)
  | step {s s' : SharedState} : Reachable nG nT s → Step s s' → Reachable nG nT s'

/-- Modelled from the spec: the group actors (not under the sources) post
exactly one table request while still to arrive and exactly one bill
request after being seated, so the receptionist's driver loop calls
`provideTableOrWaitingRoom` only for a group recorded `TOARRIVE` and
`receivePayment` only for a group recorded `ATTABLE`.  This is the step
relation of the protocol as driven by the groups. -/
inductive ProtoStep : SharedState → SharedState → Prop where
  | wait (s : SharedState) : ProtoStep s (waitForGroup s).2.1
  | post (s : SharedState) (r : Request) : ProtoStep s { s with receptionistRequest := r }
  | provide (s : SharedState) (n : Nat) (hn : n < s.nGroups)
      (hg : s.groupRecord.getD n TOARRIVE = TOARRIVE) :
      ProtoStep s (provideTableOrWaitingRoom s n).1
  | pay (s : SharedState) (n : Nat) (s' : SharedState) (sigs : List Signal)
      (hn : n < s.nGroups) (hg : s.groupRecord.getD n TOARRIVE = ATTABLE)
      (h : receivePayment s n = some (s', sigs)) : ProtoStep s s'

/-- States reachable by the protocol-driven step relation. -/
inductive ProtoReachable (nG nT : Nat) : SharedState → Prop where
  | init : ProtoReachable nG nT (initState nG nT)
  | step {s s' : SharedState} : ProtoReachable nG nT s → ProtoStep s s' →
      ProtoReachable nG nT s'

/-- The number of groups the receptionist records as waiting. -/
def waitCount (s : SharedState) : Nat :=
  (List.range s.nGroups).countP (fun i => s.groupRecord.getD i TOARRIVE == WAIT)

/-- Non-sentinel `assignedTable` entries lie in `[0, NUMTABLES)` and are
pairwise distinct. -/
def TableInv (s : SharedState) : Prop :=
  ∀ i, i < s.nGroups → s.assignedTable.getD i (-1) ≠ -1 →
    (0 ≤ s.assignedTable.getD i (-1) ∧
     s.assignedTable.getD i (-1) < (s.numTables : Int)) ∧
    ∀ j, j < s.nGroups → j ≠ i →
      s.assignedTable.getD j (-1) ≠ s.assignedTable.getD i (-1)

/-- The count of groups recorded `WAIT`, on a bare record list. -/
def waitCountL (nG : Nat) (rec : List Nat) : Nat :=
  (List.range nG).countP (fun i => rec.getD i TOARRIVE == WAIT)

/-- The counter `groupsWaiting` agrees with the number of groups recorded `WAIT`. -/
def WaitInv (s : SharedState) : Prop := s.groupsWaiting = (waitCount s : Int)

/-- A concrete mid-protocol state (2 groups, 1 table): group 0 seated at
table 0, group 1 queued. -/
def midScene : SharedState :=
  ⟨2, 1, [0, -1], [ATTABLE, WAIT], 1, emptyRequest, ASSIGNTABLE⟩

/-! ### Generic list helpers -/

theorem getD_set_self {α : Type} {l : List α} {n : Nat} (h : n < l.length) (v d : α) :
    (l.set n v).getD n d = v := by
  simp [List.getD_eq_getElem?_getD, List.getElem?_set_self h]

theorem getD_set_ne {α : Type} {l : List α} {m n : Nat} (h : m ≠ n) (v d : α) :
    (l.set m v).getD n d = l.getD n d := by
  simp [List.getD_eq_getElem?_getD, List.getElem?_set_ne h]

theorem getD_replicate {α : Type} {k n : Nat} {a d : α} :
    (List.replicate k a).getD n d = if n < k then a else d := by
  by_cases h : n < k
  · simp [List.getD_eq_getElem?_getD, List.getElem?_replicate, h]
  · simp [List.getD_eq_getElem?_getD, List.getElem?_replicate, h]

theorem find?_range_some {p : Nat → Bool} : ∀ {n t : Nat},
    (List.range n).find? p = some t → t < n ∧ p t = true ∧ ∀ u < t, p u = false := by
  intro n
  induction n with
  | zero => intro t h; simp [List.range_zero] at h
  | succ n ih =>
    intro t h
    rw [List.range_succ, List.find?_append] at h
    cases hfin : (List.range n).find? p with
    | some a =>
      rw [hfin] at h
      simp only [Option.or_some] at h
      obtain ⟨h1, h2, h3⟩ := ih (hfin.trans (congrArg some (Option.some.inj h)))
      exact ⟨Nat.lt_succ_of_lt h1, h2, h3⟩
    | none =>
      rw [hfin] at h
      simp only [Option.none_or] at h
      by_cases hp : p n
      · simp only [List.find?_cons_of_pos _ hp, List.find?_nil, Option.some.injEq] at h
        subst h
        refine ⟨Nat.lt_succ_self _, hp, ?_⟩
        intro u hu
        have := List.find?_eq_none.mp hfin u (List.mem_range.mpr hu)
        exact Bool.not_eq_true _ ▸ (by simpa using this)
      · simp only [List.find?_cons_of_neg _ hp, List.find?_nil] at h
        exact absurd h (by simp)

theorem find?_range_none {p : Nat → Bool} {n : Nat} :
    (List.range n).find? p = none ↔ ∀ u < n, p u = false := by
  rw [List.find?_eq_none]
  constructor
  · intro h u hu
    have := h u (List.mem_range.mpr hu)
    simpa using this
  · intro h x hx
    simp [h x (List.mem_range.mp hx)]

/-! ### Characterizations of the two decision functions -/

theorem tableInUse_false_iff {s : SharedState} {t : Nat} :
    tableInUse s t = false ↔ ∀ i < s.nGroups, s.assignedTable.getD i (-1) ≠ (t : Int) := by
  simp [tableInUse, List.any_eq_true, List.mem_range]

theorem tableInUse_true_iff {s : SharedState} {t : Nat} :
    tableInUse s t = true ↔ ∃ i < s.nGroups, s.assignedTable.getD i (-1) = (t : Int) := by
  simp [tableInUse, List.any_eq_true, List.mem_range]

/-- Lemma: `decideTableOrWait` ignores the receptionist status field. -/
theorem decideTableOrWait_setStat (s : SharedState) (x : Nat) (n : Int) :
    decideTableOrWait { s with receptionistStat := x } n = decideTableOrWait s n := rfl

/-- Case analysis on the result of `decideTableOrWait`: either every table
is in use and the result is `-1`, or the result is the least free table. -/
theorem decideTableOrWait_cases (s : SharedState) (n : Int) :
    (decideTableOrWait s n = -1 ∧ ∀ t < s.numTables, tableInUse s t = true) ∨
    (∃ t : Nat, decideTableOrWait s n = (t : Int) ∧ t < s.numTables ∧
       tableInUse s t = false ∧ ∀ u < t, tableInUse s u = true) := by
  unfold decideTableOrWait
  cases h : (List.range s.numTables).find? (fun numTable => !(tableInUse s numTable)) with
  | none =>
    left
    refine ⟨rfl, fun t ht => ?_⟩
    have := find?_range_none.mp h t ht
    simpa using this
  | some t =>
    right
    obtain ⟨h1, h2, h3⟩ := find?_range_some h
    refine ⟨t, rfl, h1, by simpa using h2, fun u hu => ?_⟩
    have := h3 u hu
    simpa using this

/-- Case analysis on the result of `decideNextGroup`: either no group is
recorded `WAIT` and the result is `-1`, or the result is the least group
recorded `WAIT`. -/
theorem decideNextGroup_cases (s : SharedState) :
    (decideNextGroup s = -1 ∧ ∀ i < s.nGroups, s.groupRecord.getD i TOARRIVE ≠ WAIT) ∨
    (∃ g : Nat, decideNextGroup s = (g : Int) ∧ g < s.nGroups ∧
       s.groupRecord.getD g TOARRIVE = WAIT ∧
       ∀ u < g, s.groupRecord.getD u TOARRIVE ≠ WAIT) := by
  unfold decideNextGroup
  cases h : (List.range s.nGroups).find? (fun i => s.groupRecord.getD i TOARRIVE == WAIT) with
  | none =>
    left
    refine ⟨rfl, fun i hi => ?_⟩
    have := find?_range_none.mp h i hi
    simpa using this
  | some g =>
    right
    obtain ⟨h1, h2, h3⟩ := find?_range_some h
    refine ⟨g, rfl, h1, by simpa using h2, fun u hu => ?_⟩
    have := h3 u hu
    simpa using this

/-! ### Unfolding lemmas for the operations -/

/-- Unfolding of `provideTableOrWaitingRoom` when a table is available. -/
theorem provide_eq_of_table {s : SharedState} {n : Nat} {t : Int}
    (h : decideTableOrWait s (n : Int) = t) (hne : t ≠ -1) :
    provideTableOrWaitingRoom s n =
      ({ s with receptionistStat := ASSIGNTABLE,
                assignedTable := s.assignedTable.set n t,
                groupRecord := s.groupRecord.set n ATTABLE },
       [Signal.waitForTable n]) := by
  simp only [provideTableOrWaitingRoom]
  rw [decideTableOrWait_setStat, h, if_pos hne]

/-- Unfolding of `provideTableOrWaitingRoom` when every table is in use. -/
theorem provide_eq_of_wait {s : SharedState} {n : Nat}
    (h : decideTableOrWait s (n : Int) = -1) :
    provideTableOrWaitingRoom s n =
      ({ s with receptionistStat := ASSIGNTABLE,
                groupsWaiting := s.groupsWaiting + 1,
                groupRecord := s.groupRecord.set n WAIT },
       []) := by
  simp only [provideTableOrWaitingRoom]
  rw [decideTableOrWait_setStat, h]
  simp

/-- Unfolding: `receivePayment` fails exactly when the group's assignment is outside
`[0, NUMTABLES)`. -/
theorem receivePayment_eq_none {s : SharedState} {n : Nat}
    (h : ¬(0 ≤ s.assignedTable.getD n (-1) ∧
           s.assignedTable.getD n (-1) < (s.numTables : Int))) :
    receivePayment s n = none := by
  simp only [receivePayment]
  rw [if_neg h]

/-- Unfolding of `receivePayment` when no group is waiting afterwards. -/
theorem receivePayment_eq_of_noWaiting {s : SharedState} {n : Nat}
    (hin : 0 ≤ s.assignedTable.getD n (-1) ∧
           s.assignedTable.getD n (-1) < (s.numTables : Int))
    (hg : decideNextGroup (payMid s n) = -1) :
    receivePayment s n =
      some (payMid s n, [Signal.tableDone (s.assignedTable.getD n (-1)).toNat]) := by
  simp only [receivePayment]
  rw [if_pos hin]
  simp only [hg]
  simp

/-- Unfolding of `receivePayment` when some group `g` is waiting afterwards. -/
theorem receivePayment_eq_of_waiting {s : SharedState} {n : Nat} {g : Nat}
    (hin : 0 ≤ s.assignedTable.getD n (-1) ∧
           s.assignedTable.getD n (-1) < (s.numTables : Int))
    (hg : decideNextGroup (payMid s n) = (g : Int)) :
    receivePayment s n =
      some ({ (provideTableOrWaitingRoom (payMid s n) g).1 with
                groupsWaiting :=
                  (provideTableOrWaitingRoom (payMid s n) g).1.groupsWaiting - 1 },
            Signal.tableDone (s.assignedTable.getD n (-1)).toNat ::
              (provideTableOrWaitingRoom (payMid s n) g).2) := by
  simp only [receivePayment]
  rw [if_pos hin]
  simp only [hg]
  have hne : (g : Int) ≠ -1 := by omega
  rw [if_pos hne]
  simp

/-! ### Claims about the two pure decision functions -/

/-- C6: `decideTableOrWait` is a pure decision: it returns the smallest
table index in `[0, NUMTABLES)` that is not equal to any group's current
`assignedTable` entry, and returns `-1` if every table index is assigned
to some group. -/
theorem C6_decideTableOrWait_least_free (s : SharedState) (n : Int) :
    (decideTableOrWait s n = -1 →
       ∀ t : Nat, t < s.numTables →
         ∃ i, i < s.nGroups ∧ s.assignedTable.getD i (-1) = (t : Int)) ∧
    (decideTableOrWait s n ≠ -1 →
       ∃ t : Nat, decideTableOrWait s n = (t : Int) ∧ t < s.numTables ∧
         (∀ i, i < s.nGroups → s.assignedTable.getD i (-1) ≠ (t : Int)) ∧
         ∀ u : Nat, u < t →
           ∃ i, i < s.nGroups ∧ s.assignedTable.getD i (-1) = (u : Int)) := by
  rcases decideTableOrWait_cases s n with ⟨heq, hall⟩ | ⟨t, heq, hlt, hfree, hmin⟩
  · constructor
    · intro _ t ht
      obtain ⟨i, hi, hit⟩ := tableInUse_true_iff.mp (hall t ht)
      exact ⟨i, hi, hit⟩
    · intro hne
      exact absurd heq hne
  · constructor
    · intro hc
      rw [heq] at hc
      exact absurd hc (by omega)
    · intro _
      refine ⟨t, heq, hlt, fun i hi => tableInUse_false_iff.mp hfree i hi, fun u hu => ?_⟩
      obtain ⟨i, hi, hiu⟩ := tableInUse_true_iff.mp (hmin u hu)
      exact ⟨i, hi, hiu⟩

/-- C6 witness: the theorem applied at a concrete state where table `1` is
the least free table. -/
theorem C6_witness :
    (decideTableOrWait ⟨2, 2, [0, -1], [ATTABLE, TOARRIVE], 0, emptyRequest, 0⟩ 5 = -1 →
       ∀ t : Nat, t < (2 : Nat) →
         ∃ i, i < (2 : Nat) ∧ ([0, -1] : List Int).getD i (-1) = (t : Int)) ∧
    (decideTableOrWait ⟨2, 2, [0, -1], [ATTABLE, TOARRIVE], 0, emptyRequest, 0⟩ 5 ≠ -1 →
       ∃ t : Nat,
         decideTableOrWait ⟨2, 2, [0, -1], [ATTABLE, TOARRIVE], 0, emptyRequest, 0⟩ 5 = (t : Int) ∧
         t < (2 : Nat) ∧
         (∀ i, i < (2 : Nat) → ([0, -1] : List Int).getD i (-1) ≠ (t : Int)) ∧
         ∀ u : Nat, u < t →
           ∃ i, i < (2 : Nat) ∧ ([0, -1] : List Int).getD i (-1) = (u : Int)) :=
  C6_decideTableOrWait_least_free ⟨2, 2, [0, -1], [ATTABLE, TOARRIVE], 0, emptyRequest, 0⟩ 5

/-- C7: `decideNextGroup` returns the smallest group index in
`[0, nGroups)` whose recorded lifecycle state is `WAIT`, and returns `-1`
when no group's state is `WAIT`. -/
theorem C7_decideNextGroup_least_waiting (s : SharedState) :
    (decideNextGroup s = -1 →
       ∀ i, i < s.nGroups → s.groupRecord.getD i TOARRIVE ≠ WAIT) ∧
    (decideNextGroup s ≠ -1 →
       ∃ g : Nat, decideNextGroup s = (g : Int) ∧ g < s.nGroups ∧
         s.groupRecord.getD g TOARRIVE = WAIT ∧
         ∀ u : Nat, u < g → s.groupRecord.getD u TOARRIVE ≠ WAIT) := by
  rcases decideNextGroup_cases s with ⟨heq, hall⟩ | ⟨g, heq, hlt, hwait, hmin⟩
  · exact ⟨fun _ => hall, fun hne => absurd heq hne⟩
  · constructor
    · intro hc
      rw [heq] at hc
      exact absurd hc (by omega)
    · intro _
      exact ⟨g, heq, hlt, hwait, hmin⟩

/-- C7 witness: the theorem applied at a concrete state where group `1` is
the least waiting group. -/
theorem C7_witness :
    (decideNextGroup ⟨3, 1, [0, -1, -1], [ATTABLE, WAIT, WAIT], 2, emptyRequest, 0⟩ = -1 →
       ∀ i, i < (3 : Nat) → ([ATTABLE, WAIT, WAIT] : List Nat).getD i TOARRIVE ≠ WAIT) ∧
    (decideNextGroup ⟨3, 1, [0, -1, -1], [ATTABLE, WAIT, WAIT], 2, emptyRequest, 0⟩ ≠ -1 →
       ∃ g : Nat,
         decideNextGroup ⟨3, 1, [0, -1, -1], [ATTABLE, WAIT, WAIT], 2, emptyRequest, 0⟩ = (g : Int) ∧
         g < (3 : Nat) ∧ ([ATTABLE, WAIT, WAIT] : List Nat).getD g TOARRIVE = WAIT ∧
         ∀ u : Nat, u < g → ([ATTABLE, WAIT, WAIT] : List Nat).getD u TOARRIVE ≠ WAIT) :=
  C7_decideNextGroup_least_waiting ⟨3, 1, [0, -1, -1], [ATTABLE, WAIT, WAIT], 2, emptyRequest, 0⟩

/-- C8: Scenario A with 2 groups and 1 table: `provideTableOrWaitingRoom 0`
seats group 0 at table 0; `provideTableOrWaitingRoom 1` queues group 1 with
`groupsWaiting = 1`; `receivePayment 0` signals `tableDone 0`, marks group
0 `DONE`, reassigns table 0 to group 1 (seated) and brings `groupsWaiting`
back to `0`. -/
theorem C8_scenarioA :
    provideTableOrWaitingRoom (initState 2 1) 0 =
      (⟨2, 1, [0, -1], [ATTABLE, TOARRIVE], 0, emptyRequest, ASSIGNTABLE⟩,
       [Signal.waitForTable 0]) ∧
    provideTableOrWaitingRoom
        (⟨2, 1, [0, -1], [ATTABLE, TOARRIVE], 0, emptyRequest, ASSIGNTABLE⟩ : SharedState) 1 =
      (⟨2, 1, [0, -1], [ATTABLE, WAIT], 1, emptyRequest, ASSIGNTABLE⟩, []) ∧
    receivePayment
        (⟨2, 1, [0, -1], [ATTABLE, WAIT], 1, emptyRequest, ASSIGNTABLE⟩ : SharedState) 0 =
      some (⟨2, 1, [-1, 0], [DONE, ATTABLE], 0, emptyRequest, ASSIGNTABLE⟩,
            [Signal.tableDone 0, Signal.waitForTable 1]) := by
  refine ⟨?_, ?_, ?_⟩ <;> rfl

/-- C9: `receivePayment` succeeds exactly when group `n`'s assignment lies
in `[0, NUMTABLES)` — the bound needed for the unguarded
`sh->tableDone[sh->fSt.assignedTable[n]]` access; in particular for the
unassigned sentinel `-1` the out-of-range branch is taken. -/
theorem C9_receivePayment_total_iff (s : SharedState) (n : Nat) :
    (receivePayment s n).isSome = true ↔
      (0 ≤ s.assignedTable.getD n (-1) ∧
       s.assignedTable.getD n (-1) < (s.numTables : Int)) := by
  constructor
  · intro h
    by_contra hc
    rw [receivePayment_eq_none hc] at h
    simp at h
  · intro hin
    rcases decideNextGroup_cases (payMid s n) with ⟨hg, _⟩ | ⟨g, hg, _, _, _⟩
    · rw [receivePayment_eq_of_noWaiting hin hg]
      rfl
    · rw [receivePayment_eq_of_waiting hin hg]
      rfl

/-- C9 witness: the equivalence applied to a state where group `0` has no
table (sentinel `-1`), so `receivePayment` has no in-range branch. -/
theorem C9_witness :
    (receivePayment ⟨2, 1, [-1, 0], [TOARRIVE, ATTABLE], 0, emptyRequest, 0⟩ 0).isSome = true ↔
      (0 ≤ ([-1, 0] : List Int).getD 0 (-1) ∧
       ([-1, 0] : List Int).getD 0 (-1) < ((1 : Nat) : Int)) :=
  C9_receivePayment_total_iff ⟨2, 1, [-1, 0], [TOARRIVE, ATTABLE], 0, emptyRequest, 0⟩ 0

/-- C10: the table decision is independent of the requesting group: the
`n` parameter of `decideTableOrWait` is never read, so any two requesters
get the same answer in the same shared state. -/
theorem C10_decideTableOrWait_requester_independent (s : SharedState) (m n : Int) :
    decideTableOrWait s m = decideTableOrWait s n := rfl

/-! ### The request slot is untouched by the other operations -/

theorem provide_request_unchanged (s : SharedState) (n : Nat) :
    (provideTableOrWaitingRoom s n).1.receptionistRequest = s.receptionistRequest := by
  rcases decideTableOrWait_cases s (n : Int) with ⟨heq, _⟩ | ⟨t, heq, _, _, _⟩
  · rw [provide_eq_of_wait heq]
  · rw [provide_eq_of_table heq (by omega)]

theorem receivePayment_request_unchanged {s : SharedState} {n : Nat} {s' : SharedState}
    {sigs : List Signal} (h : receivePayment s n = some (s', sigs)) :
    s'.receptionistRequest = s.receptionistRequest := by
  by_cases hin : 0 ≤ s.assignedTable.getD n (-1) ∧
      s.assignedTable.getD n (-1) < (s.numTables : Int)
  · rcases decideNextGroup_cases (payMid s n) with ⟨hg, _⟩ | ⟨g, hg, _, _, _⟩
    · rw [receivePayment_eq_of_noWaiting hin hg] at h
      simp only [Option.some.injEq, Prod.mk.injEq] at h
      obtain ⟨h1, _⟩ := h
      subst h1
      rfl
    · rw [receivePayment_eq_of_waiting hin hg] at h
      simp only [Option.some.injEq, Prod.mk.injEq] at h
      obtain ⟨h1, _⟩ := h
      subst h1
      show (provideTableOrWaitingRoom (payMid s n) g).1.receptionistRequest =
        s.receptionistRequest
      rw [provide_request_unchanged]
      rfl
  · rw [receivePayment_eq_none hin] at h
    cases h

/-! ### Postcondition claims -/

/-- C3: `provideTableOrWaitingRoom` postcondition: when a table is free it
records the assignment, seats the group (`ATTABLE`), leaves the waiting
count alone and releases exactly that group's table-ready gate; otherwise
it increments `groupsWaiting` by one, records `WAIT`, and releases no
gate. -/
theorem C3_provideTableOrWaitingRoom_post (s : SharedState) (n : Nat)
    (hn : n < s.nGroups) (hlen : s.assignedTable.length = s.nGroups)
    (hrec : s.groupRecord.length = s.nGroups) :
    (decideTableOrWait s (n : Int) ≠ -1 →
       (provideTableOrWaitingRoom s n).1.assignedTable.getD n (-1) =
         decideTableOrWait s (n : Int) ∧
       (provideTableOrWaitingRoom s n).1.groupRecord.getD n TOARRIVE = ATTABLE ∧
       (provideTableOrWaitingRoom s n).1.groupsWaiting = s.groupsWaiting ∧
       (provideTableOrWaitingRoom s n).2 = [Signal.waitForTable n]) ∧
    (decideTableOrWait s (n : Int) = -1 →
       (provideTableOrWaitingRoom s n).1.groupsWaiting = s.groupsWaiting + 1 ∧
       (provideTableOrWaitingRoom s n).1.groupRecord.getD n TOARRIVE = WAIT ∧
       (provideTableOrWaitingRoom s n).2 = []) := by
  constructor
  · intro hne
    rw [provide_eq_of_table rfl hne]
    refine ⟨?_, ?_, rfl, rfl⟩
    · exact getD_set_self (by rw [hlen]; exact hn) _ _
    · exact getD_set_self (by rw [hrec]; exact hn) _ _
  · intro heq
    rw [provide_eq_of_wait heq]
    exact ⟨rfl, getD_set_self (by rw [hrec]; exact hn) _ _, rfl⟩

/-- C3 witness: the postcondition applied to the initial two-group,
one-table state and group `0`. -/
theorem C3_witness :
    0 < (initState 2 1).nGroups ∧
    (initState 2 1).assignedTable.length = (initState 2 1).nGroups ∧
    (initState 2 1).groupRecord.length = (initState 2 1).nGroups ∧
    ((decideTableOrWait (initState 2 1) ((0 : Nat) : Int) ≠ -1 →
        (provideTableOrWaitingRoom (initState 2 1) 0).1.assignedTable.getD 0 (-1) =
          decideTableOrWait (initState 2 1) ((0 : Nat) : Int) ∧
        (provideTableOrWaitingRoom (initState 2 1) 0).1.groupRecord.getD 0 TOARRIVE = ATTABLE ∧
        (provideTableOrWaitingRoom (initState 2 1) 0).1.groupsWaiting =
          (initState 2 1).groupsWaiting ∧
        (provideTableOrWaitingRoom (initState 2 1) 0).2 = [Signal.waitForTable 0]) ∧
     (decideTableOrWait (initState 2 1) ((0 : Nat) : Int) = -1 →
        (provideTableOrWaitingRoom (initState 2 1) 0).1.groupsWaiting =
          (initState 2 1).groupsWaiting + 1 ∧
        (provideTableOrWaitingRoom (initState 2 1) 0).1.groupRecord.getD 0 TOARRIVE = WAIT ∧
        (provideTableOrWaitingRoom (initState 2 1) 0).2 = [])) :=
  ⟨by decide, by decide, by decide,
   C3_provideTableOrWaitingRoom_post (initState 2 1) 0 (by decide) (by decide) (by decide)⟩

/-- C5: `waitForGroup` returns exactly the posted request, leaves the
shared slot at the empty sentinel `{reqType: -1, reqGroup: -1}`, and the
slot keeps reading empty across the other receptionist operations (until
the next external post). -/
theorem C5_waitForGroup_consumes (s : SharedState) (m n : Nat) (s' : SharedState)
    (sigs : List Signal)
    (h : receivePayment (waitForGroup s).2.1 n = some (s', sigs)) :
    (waitForGroup s).1 = s.receptionistRequest ∧
    (waitForGroup s).2.1.receptionistRequest = emptyRequest ∧
    (provideTableOrWaitingRoom (waitForGroup s).2.1 m).1.receptionistRequest = emptyRequest ∧
    s'.receptionistRequest = emptyRequest := by
  refine ⟨rfl, rfl, ?_, ?_⟩
  · rw [provide_request_unchanged]
    rfl
  · rw [receivePayment_request_unchanged h]
    rfl

/-- C5 witness: a bill request `{1, 0}` posted by a seated group is
consumed by `waitForGroup` and the slot stays empty through a following
`provideTableOrWaitingRoom` and `receivePayment`. -/
theorem C5_witness :
    receivePayment (waitForGroup ⟨2, 1, [0, -1], [ATTABLE, TOARRIVE], 0, ⟨1, 0⟩, 0⟩).2.1 0 =
      some (⟨2, 1, [-1, -1], [DONE, TOARRIVE], 0, emptyRequest, RECVPAY⟩,
            [Signal.tableDone 0]) ∧
    ((waitForGroup ⟨2, 1, [0, -1], [ATTABLE, TOARRIVE], 0, ⟨1, 0⟩, 0⟩).1 = (⟨1, 0⟩ : Request) ∧
     (waitForGroup
         ⟨2, 1, [0, -1], [ATTABLE, TOARRIVE], 0, ⟨1, 0⟩,
           0⟩).2.1.receptionistRequest = emptyRequest ∧
     (provideTableOrWaitingRoom
         (waitForGroup ⟨2, 1, [0, -1], [ATTABLE, TOARRIVE], 0, ⟨1, 0⟩, 0⟩).2.1
         1).1.receptionistRequest = emptyRequest ∧
     (⟨2, 1, [-1, -1], [DONE, TOARRIVE], 0, emptyRequest,
        RECVPAY⟩ : SharedState).receptionistRequest = emptyRequest) :=
  ⟨by rfl,
   C5_waitForGroup_consumes ⟨2, 1, [0, -1], [ATTABLE, TOARRIVE], 0, ⟨1, 0⟩, 0⟩ 1 0
     ⟨2, 1, [-1, -1], [DONE, TOARRIVE], 0, emptyRequest, RECVPAY⟩
     [Signal.tableDone 0] (by rfl)⟩

/-! ### The table-uniqueness invariant (C1) -/

theorem wf_init (nG nT : Nat) : WF (initState nG nT) := by
  constructor <;> simp [initState, WF]

theorem tableInv_init (nG nT : Nat) : TableInv (initState nG nT) := by
  intro i hi hne
  exact absurd (by simp [initState, getD_replicate]) hne

theorem wf_provide {s : SharedState} (n : Nat) (hwf : WF s) :
    WF (provideTableOrWaitingRoom s n).1 := by
  rcases decideTableOrWait_cases s (n : Int) with ⟨heq, _⟩ | ⟨t, heq, _, _, _⟩
  · rw [provide_eq_of_wait heq]
    exact ⟨hwf.1, by simpa using hwf.2⟩
  · rw [provide_eq_of_table heq (by omega)]
    exact ⟨by simpa using hwf.1, by simpa using hwf.2⟩

theorem wf_payMid {s : SharedState} (n : Nat) (hwf : WF s) : WF (payMid s n) :=
  ⟨by simpa [payMid] using hwf.1, by simpa [payMid] using hwf.2⟩

theorem wf_pay {s : SharedState} {n : Nat} {s' : SharedState} {sigs : List Signal}
    (hwf : WF s) (h : receivePayment s n = some (s', sigs)) : WF s' := by
  by_cases hin : 0 ≤ s.assignedTable.getD n (-1) ∧
      s.assignedTable.getD n (-1) < (s.numTables : Int)
  · rcases decideNextGroup_cases (payMid s n) with ⟨hg, _⟩ | ⟨g, hg, _, _, _⟩
    · rw [receivePayment_eq_of_noWaiting hin hg] at h
      simp only [Option.some.injEq, Prod.mk.injEq] at h
      obtain ⟨h1, _⟩ := h
      subst h1
      exact wf_payMid n hwf
    · rw [receivePayment_eq_of_waiting hin hg] at h
      simp only [Option.some.injEq, Prod.mk.injEq] at h
      obtain ⟨h1, _⟩ := h
      subst h1
      exact wf_provide g (wf_payMid n hwf)
  · rw [receivePayment_eq_none hin] at h
    cases h

theorem tableInv_provide {s : SharedState} {n : Nat} (hwf : WF s) (hinv : TableInv s)
    (hn : n < s.nGroups) : TableInv (provideTableOrWaitingRoom s n).1 := by
  rcases decideTableOrWait_cases s (n : Int) with ⟨heq, _⟩ | ⟨t, heq, hlt, hfree, _⟩
  · rw [provide_eq_of_wait heq]
    exact hinv
  · rw [provide_eq_of_table heq (by omega)]
    have hfree' := tableInUse_false_iff.mp hfree
    intro i hi hne
    by_cases hin : i = n
    · subst hin
      have hA : (s.assignedTable.set i (t : Int)).getD i (-1) = (t : Int) :=
        getD_set_self (by rw [hwf.1]; exact hi) _ _
      refine ⟨⟨by rw [hA]; omega, by rw [hA]; exact_mod_cast hlt⟩, ?_⟩
      intro j hj hji
      rw [hA, getD_set_ne (Ne.symm hji)]
      exact hfree' j hj
    · have hAi : (s.assignedTable.set n (t : Int)).getD i (-1) = s.assignedTable.getD i (-1) :=
        getD_set_ne (Ne.symm hin) _ _
      rw [hAi] at hne
      obtain ⟨hrange, hdist⟩ := hinv i hi hne
      refine ⟨by rw [hAi]; exact hrange, ?_⟩
      intro j hj hji
      rw [hAi]
      by_cases hjn : j = n
      · subst hjn
        rw [getD_set_self (by rw [hwf.1]; exact hj)]
        exact fun hc => (hfree' i hi) hc.symm
      · rw [getD_set_ne (Ne.symm hjn)]
        exact hdist j hj hji

theorem tableInv_payMid {s : SharedState} {n : Nat} (hwf : WF s) (hinv : TableInv s)
    (hn : n < s.nGroups) : TableInv (payMid s n) := by
  simp only [payMid]
  intro i hi hne
  by_cases hin : i = n
  · subst hin
    have hA : (s.assignedTable.set i (-1 : Int)).getD i (-1) = -1 :=
      getD_set_self (by rw [hwf.1]; exact hi) _ _
    exact absurd hA hne
  · have hAi : (s.assignedTable.set n (-1 : Int)).getD i (-1) = s.assignedTable.getD i (-1) :=
      getD_set_ne (Ne.symm hin) _ _
    rw [hAi] at hne
    obtain ⟨hrange, hdist⟩ := hinv i hi hne
    refine ⟨by rw [hAi]; exact hrange, ?_⟩
    intro j hj hji
    rw [hAi]
    by_cases hjn : j = n
    · subst hjn
      rw [getD_set_self (by rw [hwf.1]; exact hj)]
      exact fun hc => hne hc.symm
    · rw [getD_set_ne (Ne.symm hjn)]
      exact hdist j hj hji

theorem tableInv_pay {s : SharedState} {n : Nat} {s' : SharedState} {sigs : List Signal}
    (hwf : WF s) (hinv : TableInv s) (hn : n < s.nGroups)
    (h : receivePayment s n = some (s', sigs)) : TableInv s' := by
  by_cases hin : 0 ≤ s.assignedTable.getD n (-1) ∧
      s.assignedTable.getD n (-1) < (s.numTables : Int)
  · rcases decideNextGroup_cases (payMid s n) with ⟨hg, _⟩ | ⟨g, hg, hglt, _, _⟩
    · rw [receivePayment_eq_of_noWaiting hin hg] at h
      simp only [Option.some.injEq, Prod.mk.injEq] at h
      obtain ⟨h1, _⟩ := h
      subst h1
      exact tableInv_payMid hwf hinv hn
    · rw [receivePayment_eq_of_waiting hin hg] at h
      simp only [Option.some.injEq, Prod.mk.injEq] at h
      obtain ⟨h1, _⟩ := h
      subst h1
      exact tableInv_provide (wf_payMid n hwf) (tableInv_payMid hwf hinv hn) hglt
  · rw [receivePayment_eq_none hin] at h
    cases h

theorem wf_tableInv_step {s s' : SharedState} (hs : Step s s')
    (hwf : WF s) (hinv : TableInv s) : WF s' ∧ TableInv s' := by
  cases hs with
  | wait => exact ⟨hwf, hinv⟩
  | post r => exact ⟨hwf, hinv⟩
  | provide n hn => exact ⟨wf_provide n hwf, tableInv_provide hwf hinv hn⟩
  | pay n s' sigs hn h => exact ⟨wf_pay hwf h, tableInv_pay hwf hinv hn h⟩

/-- C1: in every state reachable by any sequence of the receptionist
operations, the non-sentinel `assignedTable` entries are pairwise distinct
and every such entry lies in `[0, NUMTABLES)`. -/
theorem C1_table_uniqueness (nG nT : Nat) (s : SharedState) (h : Reachable nG nT s) :
    ∀ i, i < s.nGroups → s.assignedTable.getD i (-1) ≠ -1 →
      (0 ≤ s.assignedTable.getD i (-1) ∧
       s.assignedTable.getD i (-1) < (s.numTables : Int)) ∧
      ∀ j, j < s.nGroups → j ≠ i →
        s.assignedTable.getD j (-1) ≠ s.assignedTable.getD i (-1) := by
  have hmain : WF s ∧ TableInv s := by
    induction h with
    | init => exact ⟨wf_init nG nT, tableInv_init nG nT⟩
    | step hr hst ih => exact wf_tableInv_step hst ih.1 ih.2
  exact hmain.2

/-- C1 witness: the invariant applied to a concrete reachable state, two
steps from the initial two-group, one-table state. -/
theorem C1_witness :
    Reachable 2 1 (provideTableOrWaitingRoom (initState 2 1) 0).1 ∧
    (∀ i, i < (provideTableOrWaitingRoom (initState 2 1) 0).1.nGroups →
      (provideTableOrWaitingRoom (initState 2 1) 0).1.assignedTable.getD i (-1) ≠ -1 →
      (0 ≤ (provideTableOrWaitingRoom (initState 2 1) 0).1.assignedTable.getD i (-1) ∧
       (provideTableOrWaitingRoom (initState 2 1) 0).1.assignedTable.getD i (-1) <
         ((provideTableOrWaitingRoom (initState 2 1) 0).1.numTables : Int)) ∧
      ∀ j, j < (provideTableOrWaitingRoom (initState 2 1) 0).1.nGroups → j ≠ i →
        (provideTableOrWaitingRoom (initState 2 1) 0).1.assignedTable.getD j (-1) ≠
          (provideTableOrWaitingRoom (initState 2 1) 0).1.assignedTable.getD i (-1)) := by
  have hr : Reachable 2 1 (provideTableOrWaitingRoom (initState 2 1) 0).1 :=
    Reachable.step Reachable.init (Step.provide (initState 2 1) 0 (by decide))
  exact ⟨hr, C1_table_uniqueness 2 1 _ hr⟩

/-! ### The waiting-count invariant (C2) -/

theorem countP_range_congr_off (p q : Nat → Bool) (nG n : Nat)
    (hagree : ∀ i, i ≠ n → p i = q i) (hpq : p n = q n) :
    (List.range nG).countP p = (List.range nG).countP q :=
  List.countP_congr (fun x _ => by
    by_cases hx : x = n
    · subst hx
      rw [hpq]
    · rw [hagree x hx])

theorem countP_range_incr (p q : Nat → Bool) :
    ∀ (nG n : Nat), n < nG → (∀ i, i ≠ n → p i = q i) →
      p n = false → q n = true →
      (List.range nG).countP q = (List.range nG).countP p + 1 := by
  intro nG
  induction nG with
  | zero => intro n hn _ _ _; exact absurd hn (by omega)
  | succ nG ih =>
    intro n hn hagree hp hq
    rw [List.range_succ, List.countP_append, List.countP_append]
    by_cases hcase : n < nG
    · have hih := ih n hcase hagree hp hq
      have hlast : p nG = q nG := hagree nG (by omega)
      have hsing : List.countP q [nG] = List.countP p [nG] :=
        (List.countP_congr (fun x hx => by
          simp only [List.mem_singleton] at hx
          subst hx
          rw [hlast])).symm
      omega
    · have hne : n = nG := by omega
      subst hne
      have hpre : (List.range n).countP p = (List.range n).countP q :=
        List.countP_congr (fun x hx => by
          rw [hagree x (by have := List.mem_range.mp hx; omega)])
      have hq1 : List.countP q [n] = 1 := by simp [List.countP_cons, hq]
      have hp0 : List.countP p [n] = 0 := by simp [List.countP_cons, hp]
      omega

theorem waitCountL_set_of_eq {nG : Nat} {rec : List Nat} {n v : Nat} (hn : n < nG)
    (hlen : rec.length = nG) (h : (rec.getD n TOARRIVE == WAIT) = (v == WAIT)) :
    waitCountL nG (rec.set n v) = waitCountL nG rec := by
  unfold waitCountL
  refine countP_range_congr_off _ _ nG n (fun i hi => ?_) ?_
  · rw [getD_set_ne (Ne.symm hi)]
  · rw [getD_set_self (by rw [hlen]; exact hn), h]

theorem waitCountL_set_incr {nG : Nat} {rec : List Nat} {n : Nat} (hn : n < nG)
    (hlen : rec.length = nG) (hold : rec.getD n TOARRIVE ≠ WAIT) :
    waitCountL nG (rec.set n WAIT) = waitCountL nG rec + 1 := by
  unfold waitCountL
  refine countP_range_incr _ _ nG n hn (fun i hi => ?_) ?_ ?_
  · rw [getD_set_ne (Ne.symm hi)]
  · simpa using hold
  · rw [getD_set_self (by rw [hlen]; exact hn)]
    rfl

theorem waitCountL_set_decr {nG : Nat} {rec : List Nat} {n v : Nat} (hn : n < nG)
    (hlen : rec.length = nG) (hold : rec.getD n TOARRIVE = WAIT) (hv : v ≠ WAIT) :
    waitCountL nG rec = waitCountL nG (rec.set n v) + 1 := by
  unfold waitCountL
  refine countP_range_incr _ _ nG n hn (fun i hi => ?_) ?_ ?_
  · rw [getD_set_ne (Ne.symm hi)]
  · rw [getD_set_self (by rw [hlen]; exact hn)]
    simpa using hv
  · simpa using hold

theorem waitInv_init (nG nT : Nat) : WaitInv (initState nG nT) := by
  show (0 : Int) = (waitCountL nG (List.replicate nG TOARRIVE) : Int)
  have hz : waitCountL nG (List.replicate nG TOARRIVE) = 0 := by
    apply List.countP_eq_zero.mpr
    intro x hx
    simp [getD_replicate, List.mem_range.mp hx, TOARRIVE, WAIT]
  rw [hz]
  rfl

theorem waitInv_provide_fresh {s : SharedState} {n : Nat} (hwf : WF s) (hinv : WaitInv s)
    (hn : n < s.nGroups) (hg : s.groupRecord.getD n TOARRIVE ≠ WAIT) :
    WaitInv (provideTableOrWaitingRoom s n).1 := by
  rcases decideTableOrWait_cases s (n : Int) with ⟨heq, _⟩ | ⟨t, heq, _, _, _⟩
  · rw [provide_eq_of_wait heq]
    show s.groupsWaiting + 1 = (waitCountL s.nGroups (s.groupRecord.set n WAIT) : Int)
    rw [waitCountL_set_incr hn hwf.2 hg]
    have hinv' : s.groupsWaiting = (waitCountL s.nGroups s.groupRecord : Int) := hinv
    push_cast
    omega
  · rw [provide_eq_of_table heq (by omega)]
    show s.groupsWaiting = (waitCountL s.nGroups (s.groupRecord.set n ATTABLE) : Int)
    rw [waitCountL_set_of_eq hn hwf.2 (by simpa [ATTABLE, WAIT] using hg)]
    exact hinv

theorem waitInv_pay {s : SharedState} {n : Nat} {s' : SharedState} {sigs : List Signal}
    (hwf : WF s) (hinv : WaitInv s) (hn : n < s.nGroups)
    (hg : s.groupRecord.getD n TOARRIVE = ATTABLE)
    (h : receivePayment s n = some (s', sigs)) : WaitInv s' := by
  by_cases hin : 0 ≤ s.assignedTable.getD n (-1) ∧
      s.assignedTable.getD n (-1) < (s.numTables : Int)
  · have hmid : (payMid s n).groupsWaiting =
        (waitCountL (payMid s n).nGroups ((payMid s n).groupRecord) : Int) := by
      show s.groupsWaiting = (waitCountL s.nGroups (s.groupRecord.set n DONE) : Int)
      rw [waitCountL_set_of_eq hn hwf.2 (by rw [hg]; rfl)]
      exact hinv
    rcases decideNextGroup_cases (payMid s n) with ⟨hgd, _⟩ | ⟨g, hgd, hglt, hgw, _⟩
    · rw [receivePayment_eq_of_noWaiting hin hgd] at h
      simp only [Option.some.injEq, Prod.mk.injEq] at h
      obtain ⟨h1, _⟩ := h
      subst h1
      exact hmid
    · rw [receivePayment_eq_of_waiting hin hgd] at h
      simp only [Option.some.injEq, Prod.mk.injEq] at h
      obtain ⟨h1, _⟩ := h
      subst h1
      rcases decideTableOrWait_cases (payMid s n) (g : Int) with ⟨heq, _⟩ | ⟨t, heq, _, _, _⟩
      · rw [provide_eq_of_wait heq]
        show (payMid s n).groupsWaiting + 1 - 1 =
          (waitCountL (payMid s n).nGroups ((payMid s n).groupRecord.set g WAIT) : Int)
        rw [waitCountL_set_of_eq hglt (wf_payMid n hwf).2 (by rw [hgw])]
        omega
      · rw [provide_eq_of_table heq (by omega)]
        show (payMid s n).groupsWaiting - 1 =
          (waitCountL (payMid s n).nGroups ((payMid s n).groupRecord.set g ATTABLE) : Int)
        have hdec := waitCountL_set_decr hglt (wf_payMid n hwf).2 hgw
          (show ATTABLE ≠ WAIT by decide)
        omega
  · rw [receivePayment_eq_none hin] at h
    cases h

theorem wf_waitInv_protoStep {s s' : SharedState} (hs : ProtoStep s s')
    (hwf : WF s) (hinv : WaitInv s) : WF s' ∧ WaitInv s' := by
  cases hs with
  | wait => exact ⟨hwf, hinv⟩
  | post r => exact ⟨hwf, hinv⟩
  | provide n hn hg =>
    exact ⟨wf_provide n hwf, waitInv_provide_fresh hwf hinv hn (by rw [hg]; decide)⟩
  | pay n s' sigs hn hg h => exact ⟨wf_pay hwf h, waitInv_pay hwf hinv hn hg h⟩

/-- C2: at every quiescent point of the protocol-driven step relation,
`groupsWaiting` equals the number of groups whose recorded lifecycle state
is `WAIT`. -/
theorem C2_waiting_count_consistency (nG nT : Nat) (s : SharedState)
    (h : ProtoReachable nG nT s) :
    s.groupsWaiting = (waitCount s : Int) := by
  have hmain : WF s ∧ WaitInv s := by
    induction h with
    | init => exact ⟨wf_init nG nT, waitInv_init nG nT⟩
    | step hr hst ih => exact wf_waitInv_protoStep hst ih.1 ih.2
  exact hmain.2

/-- C2 witness: the counter invariant at a concrete protocol-reachable
state in which group `0` has just been queued (one group, no table). -/
theorem C2_witness :
    ProtoReachable 1 0 (provideTableOrWaitingRoom (initState 1 0) 0).1 ∧
    (provideTableOrWaitingRoom (initState 1 0) 0).1.groupsWaiting =
      (waitCount (provideTableOrWaitingRoom (initState 1 0) 0).1 : Int) := by
  have hr : ProtoReachable 1 0 (provideTableOrWaitingRoom (initState 1 0) 0).1 :=
    ProtoReachable.step ProtoReachable.init
      (ProtoStep.provide (initState 1 0) 0 (by decide) (by decide))
  exact ⟨hr, C2_waiting_count_consistency 1 0 _ hr⟩

/-! ### The receivePayment postcondition (C4) -/

theorem provide_untouched {s : SharedState} {m n : Nat} (hne : m ≠ n) :
    (provideTableOrWaitingRoom s m).1.assignedTable.getD n (-1) =
      s.assignedTable.getD n (-1) ∧
    (provideTableOrWaitingRoom s m).1.groupRecord.getD n TOARRIVE =
      s.groupRecord.getD n TOARRIVE := by
  rcases decideTableOrWait_cases s (m : Int) with ⟨heq, _⟩ | ⟨t, heq, _, _, _⟩
  · rw [provide_eq_of_wait heq]
    exact ⟨rfl, getD_set_ne hne _ _⟩
  · rw [provide_eq_of_table heq (by omega)]
    exact ⟨getD_set_ne hne _ _, getD_set_ne hne _ _⟩

/-- C4: `receivePayment` postcondition for a group `n` that holds a table:
it succeeds, first signals the `tableDone` gate of the table assigned to
`n`, clears `n`'s assignment to `-1` and records `DONE`; then, if
`decideNextGroup` finds no waiting group nothing further changes, and if
it finds one the result is exactly `provideTableOrWaitingRoom` applied to
that group followed by a decrement of `groupsWaiting`. -/
theorem C4_receivePayment_post (s : SharedState) (n : Nat)
    (hlen : s.assignedTable.length = s.nGroups)
    (hrec : s.groupRecord.length = s.nGroups)
    (hn : n < s.nGroups)
    (ht0 : 0 ≤ s.assignedTable.getD n (-1))
    (ht1 : s.assignedTable.getD n (-1) < (s.numTables : Int)) :
    ∃ s' sigs, receivePayment s n = some (s', sigs) ∧
      sigs.head? = some (Signal.tableDone (s.assignedTable.getD n (-1)).toNat) ∧
      s'.assignedTable.getD n (-1) = -1 ∧
      s'.groupRecord.getD n TOARRIVE = DONE ∧
      (decideNextGroup (payMid s n) = -1 →
         s' = payMid s n ∧
         sigs = [Signal.tableDone (s.assignedTable.getD n (-1)).toNat]) ∧
      (decideNextGroup (payMid s n) ≠ -1 →
         s' = { (provideTableOrWaitingRoom (payMid s n)
                   (decideNextGroup (payMid s n)).toNat).1 with
                  groupsWaiting :=
                    (provideTableOrWaitingRoom (payMid s n)
                      (decideNextGroup (payMid s n)).toNat).1.groupsWaiting - 1 } ∧
         sigs = Signal.tableDone (s.assignedTable.getD n (-1)).toNat ::
           (provideTableOrWaitingRoom (payMid s n)
             (decideNextGroup (payMid s n)).toNat).2) := by
  have hin : 0 ≤ s.assignedTable.getD n (-1) ∧
      s.assignedTable.getD n (-1) < (s.numTables : Int) := ⟨ht0, ht1⟩
  have hmid_a : (payMid s n).assignedTable.getD n (-1) = -1 :=
    getD_set_self (by rw [hlen]; exact hn) _ _
  have hmid_r : (payMid s n).groupRecord.getD n TOARRIVE = DONE :=
    getD_set_self (by rw [hrec]; exact hn) _ _
  rcases decideNextGroup_cases (payMid s n) with ⟨hgd, _⟩ | ⟨g, hgd, hglt, hgw, _⟩
  · refine ⟨payMid s n, [Signal.tableDone (s.assignedTable.getD n (-1)).toNat],
      receivePayment_eq_of_noWaiting hin hgd, rfl, hmid_a, hmid_r,
      fun _ => ⟨rfl, rfl⟩, fun hc => absurd hgd hc⟩
  · have hgn : g ≠ n := by
      intro hc
      subst hc
      rw [hmid_r] at hgw
      exact absurd hgw (by decide)
    have htoNat : (decideNextGroup (payMid s n)).toNat = g := by
      rw [hgd]
      simp
    have huntouched := provide_untouched (s := payMid s n) (m := g) (n := n) hgn
    refine ⟨_, _, receivePayment_eq_of_waiting hin hgd, rfl, ?_, ?_, ?_, ?_⟩
    · show (provideTableOrWaitingRoom (payMid s n) g).1.assignedTable.getD n (-1) = -1
      rw [huntouched.1, hmid_a]
    · show (provideTableOrWaitingRoom (payMid s n) g).1.groupRecord.getD n TOARRIVE = DONE
      rw [huntouched.2, hmid_r]
    · intro hc
      rw [hgd] at hc
      exact absurd hc (by omega)
    · intro _
      rw [htoNat]
      exact ⟨rfl, rfl⟩

/-- C4 witness: the postcondition at the concrete mid-protocol state
`midScene` (group 0 seated at table 0, group 1 queued), paying group 0. -/
theorem C4_witness :
    (midScene.assignedTable.length = midScene.nGroups ∧
     midScene.groupRecord.length = midScene.nGroups ∧
     0 < midScene.nGroups ∧
     0 ≤ midScene.assignedTable.getD 0 (-1) ∧
     midScene.assignedTable.getD 0 (-1) < (midScene.numTables : Int)) ∧
    (∃ s' sigs, receivePayment midScene 0 = some (s', sigs) ∧
      sigs.head? = some (Signal.tableDone (midScene.assignedTable.getD 0 (-1)).toNat) ∧
      s'.assignedTable.getD 0 (-1) = -1 ∧
      s'.groupRecord.getD 0 TOARRIVE = DONE ∧
      (decideNextGroup (payMid midScene 0) = -1 →
         s' = payMid midScene 0 ∧
         sigs = [Signal.tableDone (midScene.assignedTable.getD 0 (-1)).toNat]) ∧
      (decideNextGroup (payMid midScene 0) ≠ -1 →
         s' = { (provideTableOrWaitingRoom (payMid midScene 0)
                   (decideNextGroup (payMid midScene 0)).toNat).1 with
                  groupsWaiting :=
                    (provideTableOrWaitingRoom (payMid midScene 0)
                      (decideNextGroup (payMid midScene 0)).toNat).1.groupsWaiting - 1 } ∧
         sigs = Signal.tableDone (midScene.assignedTable.getD 0 (-1)).toNat ::
           (provideTableOrWaitingRoom (payMid midScene 0)
             (decideNextGroup (payMid midScene 0)).toNat).2)) :=
  ⟨⟨by decide, by decide, by decide, by decide, by decide⟩,
   C4_receivePayment_post midScene 0 (by decide) (by decide) (by decide)
     (by decide) (by decide)⟩

end Restaurant
